import Mathlib

/-!
Shallow embedding of `engines/python/setup/djl_python/streaming_utils.py`
(classes `HFStreamer` and `StreamingUtils`), together with theorems checking
the natural-language specification against it.

Modelling conventions:
* A Python `**kwargs` dictionary is modelled by the structure `Kwargs` whose
  fields are `Option`-valued: `none` means the key is absent.
* Python floats that are only ever compared (`!= 1.0`, `< 1.0`) are modelled
  as `Rat`; ints as `Int`; counts as `Nat`.
* Code that raises (`raise`, `assert`) is modelled with `Except String`.
* Torch tensors of token ids are modelled as `List Int` (one entry per batch
  row); the opaque model forward pass plus per-row decoding is abstracted as a
  function `sample : Nat → List Int` giving each row's freshly decoded token
  at a given step.
* The torch RNG is modelled abstractly: `multinomial probs rng` draws a token
  index from a distribution using an explicit generator state `rng : Nat`;
  `seed_state s` is the state of a fresh generator after `manual_seed s`.
-/

set_option autoImplicit false

/-- Keyword arguments reaching the streaming helpers; `none` = key absent. -/
structure Kwargs where
  beam_size : Option Int
  temperature : Option Rat
  top_p : Option Rat
  top_k : Option Int
  typical_p : Option Rat
  do_sample : Option Bool
  repetition_penalty : Option Rat
  max_new_tokens : Option Nat
  manual_seed : Option Int

/-- The `inputs` argument of the stream generator: either an actual Python
list of strings or some non-list value. -/
inductive PyInputs where
  | strList (xs : List String)
  | notList

/-- Generic model class computed by `StreamingUtils._get_generic_model_class`. -/
inductive GenericModelClass where
  | CausalLM
  | Seq2SeqLM
deriving DecidableEq

/-- The two decoding functions `StreamingUtils._get_decoding_method` can
return (beam search raises instead). -/
inductive DecodingMethod where
  | greedy_decoding
  | sampling_decoding
deriving DecidableEq

/-- The transformers logits processors that `_sampling_decoding` may append,
tagged with the parameter each was constructed with. -/
inductive Processor where
  | repetitionPenalty (penalty : Rat)
  | temperature (t : Rat)
  | topP (p : Rat)
  | topK (k : Int)
  | typicalP (mass : Rat)
deriving DecidableEq

/-- Items travelling through the `HFStreamer` queue: decoded text chunks, or
the `stop_signal` sentinel (`None` in the source). -/
inductive QItem where
  | chunk (text : String)
  | stop_signal
deriving DecidableEq

/-- Python `str.endswith` for a single suffix, modelled on the character
list (`String.endsWith` itself does not reduce in the kernel). -/
def ends_with (s suffix : String) : Bool := List.isSuffixOf suffix.data s.data

namespace StreamingUtils

/-- `StreamingUtils.DEFAULT_MAX_NEW_TOKENS`. -/
def DEFAULT_MAX_NEW_TOKENS : Nat := 50

/-- `StreamingUtils.SUPPORTED_MODEL_ARCH_SUFFIXES_CAUSAL_LM`. -/
def SUPPORTED_MODEL_ARCH_SUFFIXES_CAUSAL_LM : List String :=
  ["CausalLM", "GPT2LMHeadModel"]

/-- `StreamingUtils.SUPPORTED_MODEL_ARCH_SUFFIXES_SEQ_2_SEQ_LM`. -/
def SUPPORTED_MODEL_ARCH_SUFFIXES_SEQ_2_SEQ_LM : List String :=
  ["T5ForConditionalGeneration"]

/-- `StreamingUtils.SUPPORTED_MODEL_ARCH_SUFFIXES`. -/
def SUPPORTED_MODEL_ARCH_SUFFIXES : List String :=
  SUPPORTED_MODEL_ARCH_SUFFIXES_CAUSAL_LM ++ SUPPORTED_MODEL_ARCH_SUFFIXES_SEQ_2_SEQ_LM

/-- `StreamingUtils.BUILTIN_ENGINES` (a Python set; membership is what is
used, so a list is an adequate model). -/
def BUILTIN_ENGINES : List String := ["DeepSpeed", "Accelerate", "transformers-neuronx"]

/-- `StreamingUtils._get_decoding_method`.  The first guard is Python's
`"beam_size" in kwargs and kwargs["beam_size"] > 1`; the third is
`"do_sample" in kwargs and kwargs["do_sample"]`. -/
def get_decoding_method (kwargs : Kwargs) : Except String DecodingMethod :=
  if kwargs.beam_size.any (fun b => decide (b > 1)) then
    Except.error "beam search is not supported yet!"
  else if kwargs.temperature.isSome || kwargs.top_p.isSome ||
          kwargs.top_k.isSome || kwargs.typical_p.isSome then
    Except.ok DecodingMethod.sampling_decoding
  else if kwargs.do_sample.getD false then
    Except.ok DecodingMethod.sampling_decoding
  else
    Except.ok DecodingMethod.greedy_decoding

/-- Processor appended by `_sampling_decoding` for `repetition_penalty`
(present and `!= 1.0`). -/
def repetition_penalty_seg (kwargs : Kwargs) : List Processor :=
  match kwargs.repetition_penalty with
  | some p => if p ≠ 1 then [Processor.repetitionPenalty p] else []
  | none => []

/-- Processor appended by `_sampling_decoding` for `temperature` (present and
`!= 1.0`). -/
def temperature_seg (kwargs : Kwargs) : List Processor :=
  match kwargs.temperature with
  | some t => if t ≠ 1 then [Processor.temperature t] else []
  | none => []

/-- Processor appended by `_sampling_decoding` for `top_p` (present and
`< 1.0`). -/
def top_p_seg (kwargs : Kwargs) : List Processor :=
  match kwargs.top_p with
  | some p => if p < 1 then [Processor.topP p] else []
  | none => []

/-- Processor appended by `_sampling_decoding` for `top_k` (present and
`!= 0`). -/
def top_k_seg (kwargs : Kwargs) : List Processor :=
  match kwargs.top_k with
  | some k => if k ≠ 0 then [Processor.topK k] else []
  | none => []

/-- Processor appended by `_sampling_decoding` for `typical_p` (present and
`< 1.0`). -/
def typical_p_seg (kwargs : Kwargs) : List Processor :=
  match kwargs.typical_p with
  | some p => if p < 1 then [Processor.typicalP p] else []
  | none => []

/-- The `LogitsProcessorList` built by `_sampling_decoding`: the five
conditional `processors.append(...)` statements, in source order. -/
def build_processors (kwargs : Kwargs) : List Processor :=
  repetition_penalty_seg kwargs ++ temperature_seg kwargs ++ top_p_seg kwargs ++
    top_k_seg kwargs ++ typical_p_seg kwargs

/-- `LogitsProcessorList.__call__`: apply each processor in list order to the
scores.  The numeric action of each transformers processor is external to
this repository, so it is a parameter `act`. -/
def apply_processors (act : Processor → List Int → List Rat → List Rat)
    (procs : List Processor) (input_ids : List Int) (scores : List Rat) :
    List Rat :=
  procs.foldl (fun sc p => act p input_ids sc) scores

/-- `StreamingUtils._sampling_decoding`.  `act` is the action of the
transformers processors, `smax` is `torch.nn.functional.softmax`,
`multinomial probs rng` is `torch.multinomial` reading generator state `rng`,
and `seed_state s` is the state of a fresh `torch.Generator` after
`manual_seed(s)`.  Exactly as in the source: when `manual_seed` is present a
draw is taken from the freshly seeded generator and its result is discarded;
the returned draw is taken without a generator argument, i.e. from the
ambient global generator state `global_rng`. -/
def sampling_decoding (act : Processor → List Int → List Rat → List Rat)
    (smax : List Rat → List Rat) (multinomial : List Rat → Nat → Nat)
    (seed_state : Int → Nat) (logits : List (List Rat)) (input_ids : List Int)
    (kwargs : Kwargs) (global_rng : Nat) : Nat :=
  let last_logits :=
    apply_processors act (build_processors kwargs) input_ids
      (logits.getLast?.getD [])
  let probs := smax last_logits
  let _seeded_draw : Nat :=
    match kwargs.manual_seed with
    | some s => multinomial probs (seed_state s)
    | none => 0
  multinomial probs global_rng

/-- `StreamingUtils._has_met_stopping_criteria`: the sum of the 0/1 tensor of
still-unfinished rows is zero, or the new-token count reached the bound. -/
def has_met_stopping_criteria (not_eos_token_ids : List Int)
    (current_token_count max_new_tokens : Nat) : Bool :=
  if not_eos_token_ids.sum = 0 ∨ current_token_count ≥ max_new_tokens then true
  else false

/-- Warning text logged when `model.config.architectures` is absent/empty
(`_validate_inputs`). -/
def ARCH_WARNING : String :=
  "Model config does not contain architectures field"

/-- Assertion message for a non-empty architectures list with no supported
suffix (`_validate_inputs`). -/
def ARCH_UNSUPPORTED : String :=
  "model archs is not in supported list"

/-- Assertion message for an empty input list (`_validate_inputs`). -/
def EMPTY_INPUT : String := "[ERROR] empty input list"

/-- Assertion message for a non-list `inputs` (`_validate_inputs`). -/
def NOT_LIST : String := "inputs to stream generator must be a list of strings"

/-- Warning text logged by `_get_generic_model_class` when the architectures
field is absent/empty. -/
def ASSUME_CAUSAL : String :=
  "Model config does not contain architectures field. Assuming it is CausalLM type"

/-- `StreamingUtils._validate_inputs`.  Returns the warnings that were logged
on success; `Except.error` models a raised `AssertionError`.  The model's
`config.architectures` is passed directly as a list (absent field = `[]`). -/
def validate_inputs (architectures : List String) (inputs : PyInputs) :
    Except String (List String) :=
  let archCheck : Except String (List String) :=
    if architectures.isEmpty then
      Except.ok [ARCH_WARNING]
    else
      if architectures.any (fun arch =>
          SUPPORTED_MODEL_ARCH_SUFFIXES.any (fun suf => ends_with arch suf)) then
        Except.ok []
      else
        Except.error ARCH_UNSUPPORTED
  match archCheck with
  | Except.error e => Except.error e
  | Except.ok warnings =>
    match inputs with
    | PyInputs.strList xs =>
      if xs.length ≥ 1 then Except.ok warnings else Except.error EMPTY_INPUT
    | PyInputs.notList => Except.error NOT_LIST

/-- `StreamingUtils._get_generic_model_class`.  Second component: warnings
logged while deciding. -/
def get_generic_model_class (architectures : List String) :
    GenericModelClass × List String :=
  if architectures.isEmpty then
    (GenericModelClass.CausalLM, [ASSUME_CAUSAL])
  else
    if architectures.any (fun arch =>
        SUPPORTED_MODEL_ARCH_SUFFIXES_SEQ_2_SEQ_LM.any (fun suf => ends_with arch suf)) then
      (GenericModelClass.Seq2SeqLM, [])
    else
      (GenericModelClass.CausalLM, [])

/-- Per-step update of `unfinished_sequences` (lines 203–205): multiply the
previous 0/1 flags by the 0/1 indicator of `token_ids != eos_token_id`. -/
def step_unfinished (eos : Int) (sampled unfinished : List Int) : List Int :=
  List.zipWith (fun u e => u * e) unfinished
    (sampled.map (fun t => if t = eos then (0 : Int) else 1))

/-- Per-step masking of the freshly decoded tokens (lines 208–210 and
217–219): `token_ids * unfinished + pad_token_id * unfinished.logical_not()`
with 0/1 flags. -/
def step_yield (pad : Int) (sampled unf : List Int) : List Int :=
  List.zipWith (fun t u => t * u + pad * (if u = 0 then 1 else 0)) sampled unf

/-- Instrumented decoding loop of `_hf_model_stream_generator` (lines
161–227): same recursion as `stream_loop` below but recording, per step, the
updated `unfinished_sequences` next to the yielded token batch.  `sample t`
abstracts the backend forward pass plus per-row decoding at step `t`. -/
def stream_trace (eos pad : Int) (sample : Nat → List Int)
    (max_new_tokens : Nat) (unfinished : List Int) (count : Nat) :
    List (List Int × List Int) :=
  if has_met_stopping_criteria (step_unfinished eos (sample count) unfinished)
      (count + 1) max_new_tokens = true then
    [(step_unfinished eos (sample count) unfinished,
      step_yield pad (sample count) (step_unfinished eos (sample count) unfinished))]
  else
    (step_unfinished eos (sample count) unfinished,
      step_yield pad (sample count) (step_unfinished eos (sample count) unfinished)) ::
      stream_trace eos pad sample max_new_tokens
        (step_unfinished eos (sample count) unfinished) (count + 1)
termination_by max_new_tokens - count
decreasing_by
  rename_i h
  simp only [has_met_stopping_criteria] at h
  split at h
  next hp => exact absurd rfl h
  next hp =>
    push_neg at hp
    have := hp.2
    omega

/-- The decoding loop of `_hf_model_stream_generator` (lines 161–227): each
iteration decodes one token per row, increments the new-token count, updates
`unfinished_sequences`, masks finished rows to the pad token, evaluates the
stopping criterion, and yields the masked batch; the loop returns at the top
of the next iteration once the criterion was met. -/
def stream_loop (eos pad : Int) (sample : Nat → List Int)
    (max_new_tokens : Nat) (unfinished : List Int) (count : Nat) :
    List (List Int) :=
  if has_met_stopping_criteria (step_unfinished eos (sample count) unfinished)
      (count + 1) max_new_tokens = true then
    [step_yield pad (sample count) (step_unfinished eos (sample count) unfinished)]
  else
    step_yield pad (sample count) (step_unfinished eos (sample count) unfinished) ::
      stream_loop eos pad sample max_new_tokens
        (step_unfinished eos (sample count) unfinished) (count + 1)
termination_by max_new_tokens - count
decreasing_by
  rename_i h
  simp only [has_met_stopping_criteria] at h
  split at h
  next hp => exact absurd rfl h
  next hp =>
    push_neg at hp
    have := hp.2
    omega

end StreamingUtils

/-- Python `len(inputs)`. -/
def PyInputs.len : PyInputs → Nat
  | strList xs => xs.length
  | notList => 0

namespace StreamingUtils

/-- `StreamingUtils._hf_model_stream_generator`: validate inputs, derive the
generic model class, read `max_new_tokens` (default
`DEFAULT_MAX_NEW_TOKENS`), select the decoding method, then run the decoding
loop starting from all-ones `unfinished_sequences` of one flag per input
row.  Tokenisation and the backend forward pass are abstracted into
`sample`. -/
def hf_model_stream_generator (architectures : List String)
    (inputs : PyInputs) (eos pad : Int) (sample : Nat → List Int)
    (kwargs : Kwargs) : Except String (List (List Int)) :=
  match validate_inputs architectures inputs with
  | Except.error e => Except.error e
  | Except.ok _warnings =>
    let _generic_model_class := get_generic_model_class architectures
    let max_new_tokens := kwargs.max_new_tokens.getD DEFAULT_MAX_NEW_TOKENS
    match get_decoding_method kwargs with
    | Except.error e => Except.error e
    | Except.ok _method =>
      Except.ok (stream_loop eos pad sample max_new_tokens
        (List.replicate inputs.len 1) 0)

/-- `StreamingUtils.get_stream_generator`: built-in engines get the stream
generator, anything else raises `ValueError`. -/
def get_stream_generator (execution_engine : String) :
    Except String (List String → PyInputs → Int → Int → (Nat → List Int) →
      Kwargs → Except String (List (List Int))) :=
  if execution_engine ∈ BUILTIN_ENGINES then
    Except.ok hf_model_stream_generator
  else
    Except.error (execution_engine ++ " engine is not supported for streaming")

/-- Row `j` of `unfinished_sequences` after step `i` of a run of the stream
loop on `n` input rows (`none` when out of range). -/
def trace_unfinished (eos pad : Int) (sample : Nat → List Int)
    (n max_new_tokens i j : Nat) : Option Int :=
  ((stream_trace eos pad sample max_new_tokens (List.replicate n 1) 0)[i]?).bind
    (fun p => p.1[j]?)

/-- Row `j` of the token batch yielded at step `i` of a run of the stream
loop on `n` input rows (`none` when out of range). -/
def trace_yield (eos pad : Int) (sample : Nat → List Int)
    (n max_new_tokens i j : Nat) : Option Int :=
  ((stream_trace eos pad sample max_new_tokens (List.replicate n 1) 0)[i]?).bind
    (fun p => p.2[j]?)

end StreamingUtils

/-- Toy instantiation of the abstract processor action: identity. -/
def toyAct : Processor → List Int → List Rat → List Rat := fun _ _ s => s

/-- Toy instantiation of softmax: identity. -/
def toySoftmax : List Rat → List Rat := fun s => s

/-- Toy weighted sampler: reads the generator state (as any real sampler
does) and picks an index from it. -/
def toyMultinomial : List Rat → Nat → Nat := fun probs g => g % probs.length

/-- Toy seeded-generator state: every seed gives state 0. -/
def toySeedState : Int → Nat := fun _ => 0

/-- Sample kwargs: only `manual_seed` present. -/
def kwSeed42 : Kwargs := ⟨none, none, none, none, none, none, none, none, some 42⟩

/-- Sample kwargs: all five sampling parameters present and non-default. -/
def kwAllSampling : Kwargs :=
  ⟨none, some 2, some (1/2), some 5, some (1/3), none, some 2, none, none⟩

/-- Constant one-row sampler. -/
def sampleConst (v : Int) : Nat → List Int := fun _ => [v]

/-- `HFStreamer` producer side: the sequence of items `run_generation` (inside
`StreamingUtils.use_hf_default_streamer`) enqueues.  `decoded_puts` are the
already-decoded chunks `model.generate` pushed through `streamer.put`;
`gen_error = some e` means `model.generate` raised with text `e` after those
puts, in which case `str(e)` is enqueued via `put_text`; the `finally:` block
always enqueues the sentinel via `end()`. -/
def run_generation (decoded_puts : List String) (gen_error : Option String) :
    List QItem :=
  decoded_puts.map QItem.chunk ++
    (match gen_error with
     | some e => [QItem.chunk e]
     | none => []) ++
    [QItem.stop_signal]

/-- `HFStreamer` consumer side: repeatedly `__next__` on the queue contents,
returning chunks until the sentinel raises `StopIteration`. -/
def hf_streamer_iterate : List QItem → List String
  | [] => []
  | QItem.stop_signal :: _ => []
  | QItem.chunk s :: rest => s :: hf_streamer_iterate rest

/-- Sample kwargs: everything absent. -/
def kwEmpty : Kwargs := ⟨none, none, none, none, none, none, none, none, none⟩

/-- Sample kwargs: only `temperature` present. -/
def kwSamplingT : Kwargs := ⟨none, some 2, none, none, none, none, none, none, none⟩

/-!
Theorems.
-/

/-- C1: decoding-method selection: `beam_size > 1` is rejected as
unsupported; otherwise any of temperature/top_p/top_k/typical_p present, or
`do_sample` true, selects sampling; otherwise greedy. -/
theorem decoding_method_selection (kw : Kwargs) :
    ((∃ b, kw.beam_size = some b ∧ b > 1) →
      StreamingUtils.get_decoding_method kw =
        Except.error "beam search is not supported yet!")
  ∧ ((∀ b, kw.beam_size = some b → b ≤ 1) →
      (kw.temperature.isSome = true ∨ kw.top_p.isSome = true ∨
       kw.top_k.isSome = true ∨ kw.typical_p.isSome = true ∨
       kw.do_sample = some true) →
      StreamingUtils.get_decoding_method kw =
        Except.ok DecodingMethod.sampling_decoding)
  ∧ ((∀ b, kw.beam_size = some b → b ≤ 1) →
      kw.temperature = none → kw.top_p = none → kw.top_k = none →
      kw.typical_p = none → kw.do_sample ≠ some true →
      StreamingUtils.get_decoding_method kw =
        Except.ok DecodingMethod.greedy_decoding) := by
  unfold StreamingUtils.get_decoding_method
  refine ⟨?_, ?_, ?_⟩
  · rintro ⟨b, hb, hgt⟩
    simp [hb, hgt]
  · intro hble hany
    have hbeam : kw.beam_size.any (fun b => decide (b > 1)) = false := by
      cases hbs : kw.beam_size with
      | none => rfl
      | some b =>
        have hb1 : ¬ (b > 1) := not_lt.mpr (hble b hbs)
        simp [Option.any, hb1]
    simp only [hbeam, Bool.false_eq_true, if_false]
    by_cases hcond : (kw.temperature.isSome || kw.top_p.isSome ||
        kw.top_k.isSome || kw.typical_p.isSome) = true
    · rw [if_pos hcond]
    · rw [if_neg hcond]
      simp only [Bool.or_eq_true, not_or, Bool.not_eq_true] at hcond
      have hds : kw.do_sample = some true := by
        rcases hany with h | h | h | h | h
        · rw [hcond.1.1.1] at h; cases h
        · rw [hcond.1.1.2] at h; cases h
        · rw [hcond.1.2] at h; cases h
        · rw [hcond.2] at h; cases h
        · exact h
      rw [hds]
      simp
  · intro hble ht hp hk hyp hds
    have hbeam : kw.beam_size.any (fun b => decide (b > 1)) = false := by
      cases hbs : kw.beam_size with
      | none => rfl
      | some b =>
        have hb1 : ¬ (b > 1) := not_lt.mpr (hble b hbs)
        simp [Option.any, hb1]
    simp only [hbeam, Bool.false_eq_true, if_false]
    rw [ht, hp, hk, hyp]
    simp only [Option.isSome_none, Bool.or_self, Bool.false_eq_true, if_false]
    cases hd : kw.do_sample with
    | none => simp
    | some b =>
      cases b with
      | true => exact absurd hd hds
      | false => simp

/-- Witness for C1 at concrete kwargs with only `temperature` set. -/
theorem decoding_method_selection_witness :
    StreamingUtils.get_decoding_method kwSamplingT =
      Except.ok DecodingMethod.sampling_decoding :=
  (decoding_method_selection kwSamplingT).2.1
    (fun b hb => by cases hb) (Or.inl rfl)

/-- Sum of a 0/1 integer list equals its count of ones. -/
theorem sum01_eq_count (l : List Int) (h01 : ∀ x ∈ l, x = 0 ∨ x = 1) :
    l.sum = (l.count 1 : Int) := by
  induction l with
  | nil => simp
  | cons a t ih =>
    have ha := h01 a (List.mem_cons_self a t)
    have ht := fun x hx => h01 x (List.mem_cons_of_mem a hx)
    rcases ha with rfl | rfl
    · simp [List.count_cons, ih ht]
    · simp [List.count_cons, ih ht]
      ring

/-- C2: `_has_met_stopping_criteria` returns `True` exactly when the number
of unfinished rows is zero or the new-token count reached `max_new_tokens`. -/
theorem stopping_criterion_iff (l : List Int) (cnt mx : Nat)
    (h01 : ∀ x ∈ l, x = 0 ∨ x = 1) :
    StreamingUtils.has_met_stopping_criteria l cnt mx = true ↔
      (l.count 1 = 0 ∨ cnt ≥ mx) := by
  have hs := sum01_eq_count l h01
  unfold StreamingUtils.has_met_stopping_criteria
  split
  case isTrue hp =>
    simp only [true_iff]
    rcases hp with h0 | hc
    · left
      rw [hs] at h0
      exact_mod_cast h0
    · right; exact hc
  case isFalse hp =>
    simp only [Bool.false_eq_true, false_iff]
    push_neg at hp
    intro hcontra
    rcases hcontra with h0 | hc
    · exact absurd (by rw [hs]; exact_mod_cast h0) hp.1
    · exact absurd hc (not_le.mpr hp.2)

/-- Witness for C2: all rows finished at step 0 with bound 5. -/
theorem stopping_criterion_iff_witness :
    StreamingUtils.has_met_stopping_criteria [0, 0] 0 5 = true :=
  (stopping_criterion_iff [0, 0] 0 5 (by decide)).mpr (Or.inl (by decide))

/-- C8: every producer run enqueues the sentinel last (also when
`model.generate` raised, with the exception text enqueued as a chunk first),
and iterating the streamer returns exactly the earlier chunks in FIFO order,
stopping at the sentinel. -/
theorem hf_streamer_sentinel_fifo (decoded_puts : List String)
    (gen_error : Option String) :
    (∃ front, run_generation decoded_puts gen_error = front ++ [QItem.stop_signal]
      ∧ QItem.stop_signal ∉ front)
  ∧ hf_streamer_iterate (run_generation decoded_puts gen_error) =
      decoded_puts ++ gen_error.toList := by
  have hsplit : run_generation decoded_puts gen_error =
      (decoded_puts ++ gen_error.toList).map QItem.chunk ++ [QItem.stop_signal] := by
    cases gen_error <;> simp [run_generation, Option.toList]
  constructor
  · refine ⟨(decoded_puts ++ gen_error.toList).map QItem.chunk, hsplit, ?_⟩
    intro hmem
    rcases List.mem_map.mp hmem with ⟨s, _, habs⟩
    cases habs
  · rw [hsplit]
    generalize decoded_puts ++ gen_error.toList = chunks
    induction chunks with
    | nil => rfl
    | cons c t ih => simp [hf_streamer_iterate, ih]

/-- C7: `get_stream_generator` succeeds exactly on the three built-in engine
names and raises `ValueError` on every other name. -/
theorem stream_generator_engine_gate (e : String) :
    ((∃ g, StreamingUtils.get_stream_generator e = Except.ok g) ↔
      (e = "DeepSpeed" ∨ e = "Accelerate" ∨ e = "transformers-neuronx"))
  ∧ (e ∉ StreamingUtils.BUILTIN_ENGINES →
      StreamingUtils.get_stream_generator e =
        Except.error (e ++ " engine is not supported for streaming")) := by
  unfold StreamingUtils.get_stream_generator
  by_cases h : e ∈ StreamingUtils.BUILTIN_ENGINES
  · rw [if_pos h]
    refine ⟨⟨fun _ => by simpa [StreamingUtils.BUILTIN_ENGINES] using h,
             fun _ => ⟨_, rfl⟩⟩, fun hne => absurd h hne⟩
  · rw [if_neg h]
    refine ⟨⟨fun hex => ?_, fun hd => ?_⟩, fun _ => rfl⟩
    · rcases hex with ⟨g, hg⟩
      cases hg
    · exfalso
      apply h
      simp only [StreamingUtils.BUILTIN_ENGINES]
      rcases hd with rfl | rfl | rfl <;> simp

/-- Witness for C7 at a built-in name and a foreign name. -/
theorem stream_generator_engine_gate_witness :
    (∃ g, StreamingUtils.get_stream_generator "DeepSpeed" = Except.ok g) ∧
    StreamingUtils.get_stream_generator "PyTorch" =
      Except.error ("PyTorch" ++ " engine is not supported for streaming") :=
  ⟨(stream_generator_engine_gate "DeepSpeed").1.mpr (Or.inl rfl),
   (stream_generator_engine_gate "PyTorch").2 (by decide)⟩

/-- C3 counterexample: a non-empty architectures list with no recognized
suffix makes `_validate_inputs` raise (the `assert False` on line 251),
rather than warn and continue. -/
theorem arch_unrecognized_fatal_cex :
    StreamingUtils.validate_inputs ["MyFancyTransformer"]
        (PyInputs.strList ["hello"]) =
      Except.error StreamingUtils.ARCH_UNSUPPORTED := rfl

/-- C3 amended: an absent/empty architectures field gets warn-and-continue
with the CausalLM default; a non-empty list with no recognized suffix is
rejected with an assertion error. -/
theorem arch_validation_amended (architectures xs : List String)
    (hxs : xs ≠ []) :
    (architectures = [] →
      StreamingUtils.validate_inputs architectures (PyInputs.strList xs) =
        Except.ok [StreamingUtils.ARCH_WARNING] ∧
      StreamingUtils.get_generic_model_class architectures =
        (GenericModelClass.CausalLM, [StreamingUtils.ASSUME_CAUSAL]))
  ∧ (architectures ≠ [] →
      (∀ arch ∈ architectures,
        ∀ suf ∈ StreamingUtils.SUPPORTED_MODEL_ARCH_SUFFIXES,
          ends_with arch suf = false) →
      StreamingUtils.validate_inputs architectures (PyInputs.strList xs) =
        Except.error StreamingUtils.ARCH_UNSUPPORTED) := by
  have h1 : 1 ≤ xs.length := List.length_pos.mpr hxs
  constructor
  · rintro rfl
    constructor
    · simp [StreamingUtils.validate_inputs, h1]
    · simp [StreamingUtils.get_generic_model_class]
  · intro hne hsuf
    have hemp : architectures.isEmpty = false := by
      cases architectures with
      | nil => exact absurd rfl hne
      | cons a t => rfl
    have hany : (architectures.any fun arch =>
        StreamingUtils.SUPPORTED_MODEL_ARCH_SUFFIXES.any
          (fun suf => ends_with arch suf)) = false := by
      rw [List.any_eq_false]
      intro arch harch
      rw [Bool.not_eq_true, List.any_eq_false]
      intro suf hs
      rw [Bool.not_eq_true]
      exact hsuf arch harch suf hs
    simp [StreamingUtils.validate_inputs, hemp, hany]

/-- Witness for C3 amended: empty architectures, one-element input. -/
theorem arch_validation_amended_witness :
    StreamingUtils.validate_inputs [] (PyInputs.strList ["a"]) =
      Except.ok [StreamingUtils.ARCH_WARNING] :=
  ((arch_validation_amended [] ["a"] (List.cons_ne_nil _ _)).1 rfl).1

/-- C4: evaluating `_sampling_decoding` with `manual_seed` present under two
different ambient global generator states returns two different tokens for
the same arguments: the draw from the seeded generator is computed and
discarded, and the returned draw reads the global generator. -/
theorem sampling_seed_ignored :
    StreamingUtils.sampling_decoding toyAct toySoftmax toyMultinomial
        toySeedState [[0, 0]] [0] kwSeed42 0 = 0 ∧
    StreamingUtils.sampling_decoding toyAct toySoftmax toyMultinomial
        toySeedState [[0, 0]] [0] kwSeed42 1 = 1 ∧ (0 : Nat) ≠ 1 :=
  ⟨rfl, rfl, by decide⟩

/-- C5: a non-list `inputs`, or an empty input list, is rejected with an
error by `_validate_inputs`, and the stream generator returns that very
validation error whatever the backend, token ids and kwargs are: validation
runs first and nothing downstream is consulted. -/
theorem invalid_inputs_rejected_first (architectures : List String)
    (inputs : PyInputs)
    (hbad : inputs = PyInputs.notList ∨ inputs = PyInputs.strList []) :
    ∃ e, StreamingUtils.validate_inputs architectures inputs = Except.error e ∧
      ∀ (eos pad : Int) (sample : Nat → List Int) (kwargs : Kwargs),
        StreamingUtils.hf_model_stream_generator architectures inputs eos pad
            sample kwargs = Except.error e := by
  have hverr : ∃ e,
      StreamingUtils.validate_inputs architectures inputs = Except.error e := by
    by_cases hemp : architectures.isEmpty = true
    · rcases hbad with rfl | rfl
      · exact ⟨StreamingUtils.NOT_LIST, by
          simp [StreamingUtils.validate_inputs, hemp]⟩
      · exact ⟨StreamingUtils.EMPTY_INPUT, by
          simp [StreamingUtils.validate_inputs, hemp]⟩
    · by_cases hany : (architectures.any fun arch =>
          StreamingUtils.SUPPORTED_MODEL_ARCH_SUFFIXES.any
            (fun suf => ends_with arch suf)) = true
      · rcases hbad with rfl | rfl
        · exact ⟨StreamingUtils.NOT_LIST, by
            simp [StreamingUtils.validate_inputs, hemp, hany]⟩
        · exact ⟨StreamingUtils.EMPTY_INPUT, by
            simp [StreamingUtils.validate_inputs, hemp, hany]⟩
      · exact ⟨StreamingUtils.ARCH_UNSUPPORTED, by
          simp [StreamingUtils.validate_inputs, hemp, hany]⟩
  obtain ⟨e, he⟩ := hverr
  refine ⟨e, he, fun eos pad sample kwargs => ?_⟩
  simp [StreamingUtils.hf_model_stream_generator, he]

/-- Witness for C5 at a concrete non-list input. -/
theorem invalid_inputs_rejected_first_witness :
    StreamingUtils.validate_inputs [] PyInputs.notList =
      Except.error StreamingUtils.NOT_LIST ∧
    StreamingUtils.hf_model_stream_generator [] PyInputs.notList 0 1
        (sampleConst 0) kwEmpty = Except.error StreamingUtils.NOT_LIST := by
  obtain ⟨e, he, hgen⟩ :=
    invalid_inputs_rejected_first [] PyInputs.notList (Or.inl rfl)
  have hv : StreamingUtils.validate_inputs [] PyInputs.notList =
      Except.error StreamingUtils.NOT_LIST := rfl
  have hee := he.symm.trans hv
  injection hee with h
  subst h
  exact ⟨he, hgen 0 1 (sampleConst 0) kwEmpty⟩

/-- Membership in the repetition-penalty segment. -/
theorem mem_repetition_penalty_seg (kw : Kwargs) (x : Processor) :
    x ∈ StreamingUtils.repetition_penalty_seg kw ↔
      ∃ p, kw.repetition_penalty = some p ∧ p ≠ 1 ∧
        x = Processor.repetitionPenalty p := by
  unfold StreamingUtils.repetition_penalty_seg
  cases ho : kw.repetition_penalty with
  | none => simp
  | some p =>
    by_cases hp : p = 1
    · simp [hp]
    · simp [hp]

/-- Membership in the temperature segment. -/
theorem mem_temperature_seg (kw : Kwargs) (x : Processor) :
    x ∈ StreamingUtils.temperature_seg kw ↔
      ∃ t, kw.temperature = some t ∧ t ≠ 1 ∧ x = Processor.temperature t := by
  unfold StreamingUtils.temperature_seg
  cases ho : kw.temperature with
  | none => simp
  | some t =>
    by_cases ht : t = 1
    · simp [ht]
    · simp [ht]

/-- Membership in the top-p segment. -/
theorem mem_top_p_seg (kw : Kwargs) (x : Processor) :
    x ∈ StreamingUtils.top_p_seg kw ↔
      ∃ p, kw.top_p = some p ∧ p < 1 ∧ x = Processor.topP p := by
  unfold StreamingUtils.top_p_seg
  cases ho : kw.top_p with
  | none => simp
  | some p =>
    by_cases hp : p < 1
    · simp [hp]
    · simp [hp]

/-- Membership in the top-k segment. -/
theorem mem_top_k_seg (kw : Kwargs) (x : Processor) :
    x ∈ StreamingUtils.top_k_seg kw ↔
      ∃ k, kw.top_k = some k ∧ k ≠ 0 ∧ x = Processor.topK k := by
  unfold StreamingUtils.top_k_seg
  cases ho : kw.top_k with
  | none => simp
  | some k =>
    by_cases hk : k = 0
    · simp [hk]
    · simp [hk]

/-- Membership in the typical-p segment. -/
theorem mem_typical_p_seg (kw : Kwargs) (x : Processor) :
    x ∈ StreamingUtils.typical_p_seg kw ↔
      ∃ p, kw.typical_p = some p ∧ p < 1 ∧ x = Processor.typicalP p := by
  unfold StreamingUtils.typical_p_seg
  cases ho : kw.typical_p with
  | none => simp
  | some p =>
    by_cases hp : p < 1
    · simp [hp]
    · simp [hp]

/-- C6: the logits-processor list of `_sampling_decoding` contains each
processor exactly under the stated present-and-non-default condition; with
all five conditions it is exactly repetition penalty, temperature, top-p,
top-k, typical-p in that order; and the sampled token is a multinomial draw
from the softmax of the processed last-step logits. -/
theorem sampling_processor_pipeline :
    (∀ (kw : Kwargs) (p : Rat),
      Processor.repetitionPenalty p ∈ StreamingUtils.build_processors kw ↔
        kw.repetition_penalty = some p ∧ p ≠ 1)
  ∧ (∀ (kw : Kwargs) (t : Rat),
      Processor.temperature t ∈ StreamingUtils.build_processors kw ↔
        kw.temperature = some t ∧ t ≠ 1)
  ∧ (∀ (kw : Kwargs) (p : Rat),
      Processor.topP p ∈ StreamingUtils.build_processors kw ↔
        kw.top_p = some p ∧ p < 1)
  ∧ (∀ (kw : Kwargs) (k : Int),
      Processor.topK k ∈ StreamingUtils.build_processors kw ↔
        kw.top_k = some k ∧ k ≠ 0)
  ∧ (∀ (kw : Kwargs) (p : Rat),
      Processor.typicalP p ∈ StreamingUtils.build_processors kw ↔
        kw.typical_p = some p ∧ p < 1)
  ∧ (∀ (kw : Kwargs) (rp t tp yp : Rat) (k : Int),
      kw.repetition_penalty = some rp → rp ≠ 1 →
      kw.temperature = some t → t ≠ 1 →
      kw.top_p = some tp → tp < 1 →
      kw.top_k = some k → k ≠ 0 →
      kw.typical_p = some yp → yp < 1 →
      StreamingUtils.build_processors kw =
        [Processor.repetitionPenalty rp, Processor.temperature t,
         Processor.topP tp, Processor.topK k, Processor.typicalP yp])
  ∧ (∀ act smax multinomial seed_state logits input_ids
        (kw : Kwargs) (g : Nat),
      StreamingUtils.sampling_decoding act smax multinomial seed_state logits
          input_ids kw g =
        multinomial (smax (StreamingUtils.apply_processors act
          (StreamingUtils.build_processors kw) input_ids
          (logits.getLast?.getD []))) g) := by
  refine ⟨?_, ?_, ?_, ?_, ?_, ?_, ?_⟩
  · intro kw p
    simp [StreamingUtils.build_processors, mem_repetition_penalty_seg,
      mem_temperature_seg, mem_top_p_seg, mem_top_k_seg, mem_typical_p_seg]
  · intro kw t
    simp [StreamingUtils.build_processors, mem_repetition_penalty_seg,
      mem_temperature_seg, mem_top_p_seg, mem_top_k_seg, mem_typical_p_seg]
  · intro kw p
    simp [StreamingUtils.build_processors, mem_repetition_penalty_seg,
      mem_temperature_seg, mem_top_p_seg, mem_top_k_seg, mem_typical_p_seg]
  · intro kw k
    simp [StreamingUtils.build_processors, mem_repetition_penalty_seg,
      mem_temperature_seg, mem_top_p_seg, mem_top_k_seg, mem_typical_p_seg]
  · intro kw p
    simp [StreamingUtils.build_processors, mem_repetition_penalty_seg,
      mem_temperature_seg, mem_top_p_seg, mem_top_k_seg, mem_typical_p_seg]
  · intro kw rp t tp yp k h1 h2 h3 h4 h5 h6 h7 h8 h9 h10
    simp [StreamingUtils.build_processors, StreamingUtils.repetition_penalty_seg,
      StreamingUtils.temperature_seg, StreamingUtils.top_p_seg,
      StreamingUtils.top_k_seg, StreamingUtils.typical_p_seg,
      h1, h2, h3, h4, h5, h6, h7, h8, h9, h10]
  · intro act smax multinomial seed_state logits input_ids kw g
    rfl

/-- Witness for C6 at kwargs with all five sampling parameters set. -/
theorem sampling_processor_pipeline_witness :
    StreamingUtils.build_processors kwAllSampling =
      [Processor.repetitionPenalty 2, Processor.temperature 2,
       Processor.topP (1/2), Processor.topK 5, Processor.typicalP (1/3)] :=
  sampling_processor_pipeline.2.2.2.2.2.1 kwAllSampling 2 2 (1/2) (1/3) 5
    rfl (by norm_num) rfl (by norm_num) rfl (by norm_num) rfl (by norm_num)
    rfl (by norm_num)

/-- Every run of the decoding loop yields at most `max (max_new_tokens - count) 1`
batches. -/
theorem stream_loop_length_le (eos pad : Int) (sample : Nat → List Int) :
    ∀ (fuel max_new_tokens count : Nat) (unfinished : List Int),
      max_new_tokens - count = fuel →
      (StreamingUtils.stream_loop eos pad sample max_new_tokens unfinished
        count).length ≤ max (max_new_tokens - count) 1 := by
  intro fuel
  induction fuel using Nat.strong_induction_on with
  | _ fuel ih =>
    intro max_new_tokens count unfinished hfuel
    rw [StreamingUtils.stream_loop]
    split
    next h => simp
    next h =>
      have hlt : count + 1 < max_new_tokens := by
        simp only [StreamingUtils.has_met_stopping_criteria] at h
        split at h
        next hp => exact absurd rfl h
        next hp =>
          push_neg at hp
          exact hp.2
      have hrec := ih (max_new_tokens - (count + 1)) (by omega) max_new_tokens
        (count + 1)
        (StreamingUtils.step_unfinished eos (sample count) unfinished) rfl
      simp only [List.length_cons]
      omega

/-- C10: when `max_new_tokens` is absent from the kwargs, the stream
generator runs with the default bound `DEFAULT_MAX_NEW_TOKENS = 50`, so every
successful run yields at most 50 per-step token batches. -/
theorem default_max_new_tokens_bound (architectures : List String)
    (inputs : PyInputs) (eos pad : Int) (sample : Nat → List Int)
    (kwargs : Kwargs) (out : List (List Int))
    (hnone : kwargs.max_new_tokens = none)
    (hok : StreamingUtils.hf_model_stream_generator architectures inputs eos
      pad sample kwargs = Except.ok out) :
    StreamingUtils.DEFAULT_MAX_NEW_TOKENS = 50 ∧ out.length ≤ 50 := by
  refine ⟨rfl, ?_⟩
  unfold StreamingUtils.hf_model_stream_generator at hok
  cases hv : StreamingUtils.validate_inputs architectures inputs with
  | error e =>
    rw [hv] at hok
    cases hok
  | ok w =>
    rw [hv] at hok
    cases hm : StreamingUtils.get_decoding_method kwargs with
    | error e =>
      rw [hm] at hok
      cases hok
    | ok m =>
      rw [hm, hnone] at hok
      injection hok with hout
      subst hout
      have := stream_loop_length_le eos pad sample 50 50 0
        (List.replicate inputs.len 1) rfl
      simpa using this

/-- A failed stopping check bounds the token count. -/
theorem not_met_lt (unf : List Int) (c m : Nat)
    (h : ¬ StreamingUtils.has_met_stopping_criteria unf c m = true) : c < m := by
  simp only [StreamingUtils.has_met_stopping_criteria] at h
  split at h
  next hp => exact absurd rfl h
  next hp =>
    push_neg at hp
    exact hp.2

/-- Pointwise description of `zipWith` through `getElem?`. -/
theorem getElem?_zipWith_some {α β γ : Type} (f : α → β → γ) (l1 : List α)
    (l2 : List β) (i : Nat) (a : α) (b : β) (h1 : l1[i]? = some a)
    (h2 : l2[i]? = some b) : (List.zipWith f l1 l2)[i]? = some (f a b) := by
  induction l1 generalizing l2 i with
  | nil => simp at h1
  | cons x xs ih =>
    cases l2 with
    | nil => simp at h2
    | cons y ys =>
      cases i with
      | zero =>
        simp only [List.getElem?_cons_zero, Option.some.injEq] at h1 h2
        subst h1
        subst h2
        simp [List.zipWith]
      | succ m =>
        simp only [List.getElem?_cons_succ] at h1 h2 ⊢
        simp only [List.zipWith, List.getElem?_cons_succ]
        exact ih ys m h1 h2

/-- A row already marked finished stays finished after a step. -/
theorem step_unfinished_getElem?_zero (eos : Int) (sampled unfinished : List Int)
    (j : Nat) (hj : j < sampled.length) (hz : unfinished[j]? = some 0) :
    (StreamingUtils.step_unfinished eos sampled unfinished)[j]? = some 0 := by
  unfold StreamingUtils.step_unfinished
  have hm : (sampled.map (fun t => if t = eos then (0 : Int) else 1))[j]? =
      some (if sampled[j] = eos then (0 : Int) else 1) := by
    rw [List.getElem?_map, List.getElem?_eq_getElem hj]
    rfl
  have := getElem?_zipWith_some (fun u e => u * e) unfinished
    (sampled.map (fun t => if t = eos then (0 : Int) else 1)) j 0
    (if sampled[j] = eos then (0 : Int) else 1) hz hm
  simpa using this

/-- A finished row's yielded token is the pad token. -/
theorem step_yield_getElem?_pad (pad : Int) (sampled unf : List Int) (j : Nat)
    (hj : j < sampled.length) (hz : unf[j]? = some 0) :
    (StreamingUtils.step_yield pad sampled unf)[j]? = some pad := by
  unfold StreamingUtils.step_yield
  have := getElem?_zipWith_some
    (fun t u => t * u + pad * (if u = 0 then 1 else 0)) sampled unf j
    (sampled[j]) 0 (List.getElem?_eq_getElem hj) hz
  simpa using this

/-- Length of the updated unfinished flags. -/
theorem step_unfinished_length (eos : Int) (sampled unfinished : List Int) :
    (StreamingUtils.step_unfinished eos sampled unfinished).length =
      min unfinished.length sampled.length := by
  simp [StreamingUtils.step_unfinished]

/-- Flags stay 0/1 across a step. -/
theorem step_unfinished_mem_zero_one (eos : Int) (sampled unfinished : List Int)
    (h01 : ∀ x ∈ unfinished, x = 0 ∨ x = 1) :
    ∀ x ∈ StreamingUtils.step_unfinished eos sampled unfinished,
      x = 0 ∨ x = 1 := by
  intro x hx
  unfold StreamingUtils.step_unfinished at hx
  rcases List.mem_iff_getElem.mp hx with ⟨i, hi, hval⟩
  rw [List.getElem_zipWith] at hval
  have hiu : i < unfinished.length := by
    rw [List.length_zipWith] at hi
    omega
  rw [List.getElem_map] at hval
  split at hval
  next he =>
    rw [mul_zero] at hval
    exact Or.inl hval.symm
  next he =>
    rw [mul_one] at hval
    rw [← hval]
    exact h01 _ (List.getElem_mem hiu)

/-- Once a row's flag is 0 at the start of a run of the loop, every step of
that run keeps its flag at 0 and yields the pad token for it. -/
theorem stream_trace_zero_mem (eos pad : Int) (sample : Nat → List Int)
    (n : Nat) (hs : ∀ t, (sample t).length = n) :
    ∀ (fuel max_new_tokens count : Nat) (unfinished : List Int),
      max_new_tokens - count = fuel → unfinished.length = n →
      ∀ (j : Nat), unfinished[j]? = some 0 →
      ∀ p ∈ StreamingUtils.stream_trace eos pad sample max_new_tokens
          unfinished count,
        p.1[j]? = some 0 ∧ p.2[j]? = some pad := by
  intro fuel
  induction fuel using Nat.strong_induction_on with
  | _ fuel ih =>
    intro max_new_tokens count unfinished hfuel hlen j hz p hp
    have hjn : j < n := by
      have := (List.getElem?_eq_some.mp hz).1
      omega
    have hjs : j < (sample count).length := by
      rw [hs count]
      exact hjn
    have hz' : (StreamingUtils.step_unfinished eos (sample count)
        unfinished)[j]? = some 0 :=
      step_unfinished_getElem?_zero eos (sample count) unfinished j hjs hz
    have hy' : (StreamingUtils.step_yield pad (sample count)
        (StreamingUtils.step_unfinished eos (sample count) unfinished))[j]? =
          some pad :=
      step_yield_getElem?_pad pad (sample count) _ j hjs hz'
    have hulen : (StreamingUtils.step_unfinished eos (sample count)
        unfinished).length = n := by
      rw [step_unfinished_length, hlen, hs count]
      exact Nat.min_self n
    rw [StreamingUtils.stream_trace] at hp
    split at hp
    next h =>
      simp only [List.mem_singleton] at hp
      subst hp
      exact ⟨hz', hy'⟩
    next h =>
      rcases List.mem_cons.mp hp with rfl | htail
      · exact ⟨hz', hy'⟩
      · have hlt : count + 1 < max_new_tokens := not_met_lt _ _ _ h
        exact ih (max_new_tokens - (count + 1)) (by omega) max_new_tokens
          (count + 1) _ rfl hulen j hz' p htail

/-- Unfinished flags are 0/1 at every step of a run of the loop. -/
theorem stream_trace_zero_one (eos pad : Int) (sample : Nat → List Int) :
    ∀ (fuel max_new_tokens count : Nat) (unfinished : List Int),
      max_new_tokens - count = fuel →
      (∀ x ∈ unfinished, x = 0 ∨ x = 1) →
      ∀ p ∈ StreamingUtils.stream_trace eos pad sample max_new_tokens
          unfinished count,
        ∀ x ∈ p.1, x = 0 ∨ x = 1 := by
  intro fuel
  induction fuel using Nat.strong_induction_on with
  | _ fuel ih =>
    intro max_new_tokens count unfinished hfuel h01 p hp
    have h01' := step_unfinished_mem_zero_one eos (sample count) unfinished h01
    rw [StreamingUtils.stream_trace] at hp
    split at hp
    next h =>
      simp only [List.mem_singleton] at hp
      subst hp
      exact h01'
    next h =>
      rcases List.mem_cons.mp hp with rfl | htail
      · exact h01'
      · have hlt : count + 1 < max_new_tokens := not_met_lt _ _ _ h
        exact ih (max_new_tokens - (count + 1)) (by omega) max_new_tokens
          (count + 1) _ rfl h01' p htail

/-- Zero flags propagate from any step to any later step of the same run,
with the pad token yielded there. -/
theorem stream_trace_zero_propagates (eos pad : Int) (sample : Nat → List Int)
    (n : Nat) (hs : ∀ t, (sample t).length = n) :
    ∀ (fuel max_new_tokens count : Nat) (unfinished : List Int),
      max_new_tokens - count = fuel → unfinished.length = n →
      ∀ (i i' j : Nat), i ≤ i' →
      i' < (StreamingUtils.stream_trace eos pad sample max_new_tokens
        unfinished count).length →
      ((StreamingUtils.stream_trace eos pad sample max_new_tokens unfinished
        count)[i]?.bind (fun p => p.1[j]?)) = some 0 →
      ((StreamingUtils.stream_trace eos pad sample max_new_tokens unfinished
        count)[i']?.bind (fun p => p.1[j]?)) = some 0 ∧
      ((StreamingUtils.stream_trace eos pad sample max_new_tokens unfinished
        count)[i']?.bind (fun p => p.2[j]?)) = some pad := by
  intro fuel
  induction fuel using Nat.strong_induction_on with
  | _ fuel ih =>
    intro max_new_tokens count unfinished hfuel hlen i i' j hii hi' h0
    rw [StreamingUtils.stream_trace] at hi' h0 ⊢
    by_cases hc : StreamingUtils.has_met_stopping_criteria
        (StreamingUtils.step_unfinished eos (sample count) unfinished)
        (count + 1) max_new_tokens = true
    · rw [if_pos hc] at hi' h0 ⊢
      have hi0 : i' = 0 := by
        simp only [List.length_singleton] at hi'
        omega
      have hieq : i = 0 := by omega
      subst hi0
      subst hieq
      simp only [List.getElem?_cons_zero, Option.some_bind] at h0 ⊢
      have hjn : j < n := by
        have hlen' : (StreamingUtils.step_unfinished eos (sample count)
            unfinished).length = n := by
          rw [step_unfinished_length, hlen, hs count]
          exact Nat.min_self n
        have := (List.getElem?_eq_some.mp h0).1
        omega
      have hjs : j < (sample count).length := by
        rw [hs count]
        exact hjn
      exact ⟨h0, step_yield_getElem?_pad pad (sample count) _ j hjs h0⟩
    · rw [if_neg hc] at hi' h0 ⊢
      have hlt : count + 1 < max_new_tokens := not_met_lt _ _ _ hc
      have hulen : (StreamingUtils.step_unfinished eos (sample count)
          unfinished).length = n := by
        rw [step_unfinished_length, hlen, hs count]
        exact Nat.min_self n
      cases i with
      | zero =>
        simp only [List.getElem?_cons_zero, Option.some_bind] at h0
        have hjs : j < (sample count).length := by
          rw [hs count]
          have := (List.getElem?_eq_some.mp h0).1
          omega
        cases i' with
        | zero =>
          simp only [List.getElem?_cons_zero, Option.some_bind]
          exact ⟨h0, step_yield_getElem?_pad pad (sample count) _ j hjs h0⟩
        | succ k =>
          simp only [List.getElem?_cons_succ]
          simp only [List.length_cons] at hi'
          have hk : k < (StreamingUtils.stream_trace eos pad sample
              max_new_tokens (StreamingUtils.step_unfinished eos (sample count)
                unfinished) (count + 1)).length := by omega
          have hp : (StreamingUtils.stream_trace eos pad sample max_new_tokens
              (StreamingUtils.step_unfinished eos (sample count) unfinished)
              (count + 1))[k]? = some ((StreamingUtils.stream_trace eos pad
                sample max_new_tokens (StreamingUtils.step_unfinished eos
                  (sample count) unfinished) (count + 1))[k]) :=
            List.getElem?_eq_getElem hk
          have hmem := List.getElem_mem hk
          have := stream_trace_zero_mem eos pad sample n hs
            (max_new_tokens - (count + 1)) max_new_tokens (count + 1) _ rfl
            hulen j h0 _ hmem
          rw [hp]
          simpa using this
      | succ m =>
        cases i' with
        | zero => omega
        | succ k =>
          simp only [List.getElem?_cons_succ] at h0 ⊢
          simp only [List.length_cons] at hi'
          exact ih (max_new_tokens - (count + 1)) (by omega) max_new_tokens
            (count + 1) _ rfl hulen m k j (by omega) (by omega) h0

/-- The decoding loop yields exactly the second components of the
instrumented trace: the two recursions describe the same run. -/
theorem stream_loop_eq_trace_snd (eos pad : Int) (sample : Nat → List Int) :
    ∀ (fuel max_new_tokens count : Nat) (unfinished : List Int),
      max_new_tokens - count = fuel →
      StreamingUtils.stream_loop eos pad sample max_new_tokens unfinished
          count =
        (StreamingUtils.stream_trace eos pad sample max_new_tokens unfinished
          count).map Prod.snd := by
  intro fuel
  induction fuel using Nat.strong_induction_on with
  | _ fuel ih =>
    intro max_new_tokens count unfinished hfuel
    rw [StreamingUtils.stream_loop, StreamingUtils.stream_trace]
    by_cases hc : StreamingUtils.has_met_stopping_criteria
        (StreamingUtils.step_unfinished eos (sample count) unfinished)
        (count + 1) max_new_tokens = true
    · rw [if_pos hc, if_pos hc]
      rfl
    · rw [if_neg hc, if_neg hc]
      have hlt : count + 1 < max_new_tokens := not_met_lt _ _ _ hc
      simp only [List.map_cons]
      rw [ih (max_new_tokens - (count + 1)) (by omega) max_new_tokens
        (count + 1) _ rfl]

/-- C9: in every run of the decoding loop the per-row unfinished flags are
0/1 valued, and once row `j` is finished at step `i` (flag 0, i.e. it has
emitted `eos_token_id` at or before step `i`) it is still finished at every
later step `i'` of the run, where the token yielded for it is the pad token,
never a newly sampled token. -/
theorem finished_rows_stay_finished_and_pad (eos pad : Int)
    (sample : Nat → List Int) (n max_new_tokens i i' j : Nat)
    (hs : ∀ t, (sample t).length = n) (hii : i ≤ i')
    (hi' : i' < (StreamingUtils.stream_trace eos pad sample max_new_tokens
      (List.replicate n 1) 0).length)
    (h0 : StreamingUtils.trace_unfinished eos pad sample n max_new_tokens i j =
      some 0) :
    (∀ p ∈ StreamingUtils.stream_trace eos pad sample max_new_tokens
        (List.replicate n 1) 0, ∀ x ∈ p.1, x = 0 ∨ x = 1) ∧
    StreamingUtils.trace_unfinished eos pad sample n max_new_tokens i' j =
      some 0 ∧
    StreamingUtils.trace_yield eos pad sample n max_new_tokens i' j =
      some pad := by
  refine ⟨?_, ?_⟩
  · refine stream_trace_zero_one eos pad sample max_new_tokens max_new_tokens 0
      (List.replicate n 1) rfl ?_
    intro x hx
    exact Or.inr (List.eq_of_mem_replicate hx)
  · unfold StreamingUtils.trace_unfinished at h0
    unfold StreamingUtils.trace_unfinished StreamingUtils.trace_yield
    exact stream_trace_zero_propagates eos pad sample n hs max_new_tokens
      max_new_tokens 0 (List.replicate n 1) rfl (List.length_replicate n 1)
      i i' j hii hi' h0

/-- Witness for C9: one row, eos emitted at the very first step. -/
theorem finished_rows_stay_finished_and_pad_witness :
    StreamingUtils.trace_unfinished 5 7 (sampleConst 5) 1 3 0 0 = some 0 ∧
    StreamingUtils.trace_yield 5 7 (sampleConst 5) 1 3 0 0 = some 7 := by
  have htr : StreamingUtils.stream_trace 5 7 (sampleConst 5) 3
      (List.replicate 1 1) 0 = [([0], [7])] := by
    rw [StreamingUtils.stream_trace]
    decide
  have h0 : StreamingUtils.trace_unfinished 5 7 (sampleConst 5) 1 3 0 0 =
      some 0 := by
    unfold StreamingUtils.trace_unfinished
    rw [htr]
    rfl
  have hmain := finished_rows_stay_finished_and_pad 5 7 (sampleConst 5) 1 3 0 0
    0 (fun _ => rfl) (le_refl 0) (by rw [htr]; simp) h0
  exact ⟨hmain.2.1, hmain.2.2⟩

/-- Witness for C10: a one-row run with empty kwargs stops at the first step
(eos immediately), within the default bound. -/
theorem default_max_new_tokens_bound_witness :
    StreamingUtils.DEFAULT_MAX_NEW_TOKENS = 50 ∧
    (([[1]] : List (List Int))).length ≤ 50 := by
  have h1 : StreamingUtils.hf_model_stream_generator [] (PyInputs.strList
      ["hi"]) 0 1 (sampleConst 0) kwEmpty =
      Except.ok (StreamingUtils.stream_loop 0 1 (sampleConst 0) 50
        (List.replicate (PyInputs.strList ["hi"]).len 1) 0) := rfl
  have h2 : StreamingUtils.stream_loop 0 1 (sampleConst 0) 50
      (List.replicate (PyInputs.strList ["hi"]).len 1) 0 = [[1]] := by
    rw [StreamingUtils.stream_loop]
    decide
  exact default_max_new_tokens_bound [] (PyInputs.strList ["hi"]) 0 1
    (sampleConst 0) kwEmpty [[1]] rfl (h1.trans (by rw [h2]))
